import Mathlib

/-!
# Verification of the SVG-to-editable-map interactive region engine

A shallow embedding, in Lean 4, of the region-binding and tooltip-positioning
core of the "Clickable SVG Map Maker" repository, together with proofs and
refutations of the behavioural claims made in its specification.

The embedding mirrors the TypeScript source:

* `adjustColorShade` — the colour-shade helper of the application shell
  (`App.tsx`), on exact integer arithmetic.
* `renameRegion` — the identifier rename coordinator
  (`handleRegionIdChange` in `App.tsx` combined with the `idChangeOp`
  layout effect of `MapDisplay.tsx`), over an explicit application state.
* `indexRegions` — the region indexer (the SVG-setup effect of
  `MapDisplay.tsx`; the exported script repeats the identical rule).
* `editorClickPos` / `editorHoverPos` — the measure-then-place layout
  effect of `MapDisplay.tsx`, on exact rational coordinates.
* `exportClickPos` / `exportHoverPos` — the corresponding placement code of
  the standalone script emitted by `exportService.ts`.
* `editorStyleElem` / `exportSetupElem` — the styling effect of
  `MapDisplay.tsx` and the per-region setup of the exported script.
* `panelInit` — the initialisation effect of `CustomizationPanel.tsx`.
* `escapeSvg` / `decodeTemplate` — the SVG-source escaping performed by
  `exportService.ts`, and a model of JavaScript template-literal decoding.
-/

namespace SvgMap

/-! ## Colour-shade helper (`adjustColorShade`, App.tsx)

The source:

    const adjustColorShade = (hex: string, percent: number): string => {
      let color = hex.startsWith('#') ? hex.slice(1) : hex;
      if (color.length === 3) {
        color = color.split('').map(char => char + char).join('');
      }
      const num = parseInt(color, 16);
      const amount = Math.round(2.55 * percent);
      const r = Math.max(0, Math.min(255, (num >> 16) + amount));
      const g = Math.max(0, Math.min(255, ((num >> 8) & 0x00FF) + amount));
      const b = Math.max(0, Math.min(255, (num & 0x0000FF) + amount));
      return hash + r.toString(16).padStart(2, '0') + ... ;
    };
-/

/-- Value of a hexadecimal digit character; `0` for non-digits.  (Inputs in
scope of the claims are well-formed hex colours, where the default branch is
never taken; `parseInt`'s NaN path for malformed colours is not modelled.) -/
def hexVal (c : Char) : Nat :=
  if '0' ≤ c ∧ c ≤ '9' then c.toNat - '0'.toNat
  else if 'a' ≤ c ∧ c ≤ 'f' then c.toNat - 'a'.toNat + 10
  else if 'A' ≤ c ∧ c ≤ 'F' then c.toNat - 'A'.toNat + 10
  else 0

/-- `parseInt(s, 16)` on a list of hex digits. -/
def parseHex (l : List Char) : Nat :=
  l.foldl (fun a c => 16 * a + hexVal c) 0

/-- Lowercase hex digit character for `d < 16` (as produced by JavaScript
`Number.prototype.toString(16)`). -/
def hexChar (d : Nat) : Char :=
  if d < 10 then Char.ofNat ('0'.toNat + d) else Char.ofNat ('a'.toNat + (d - 10))

/-- `n.toString(16).padStart(2, '0')` for a channel value `n ≤ 255`. -/
def toHex2 (n : Nat) : List Char :=
  [hexChar (n / 16), hexChar (n % 16)]

/-- `Math.round(2.55 * percent)` with `2.55 = 51/20`, computed exactly:
JavaScript `Math.round x = ⌊x + 1/2⌋` (half rounds toward positive infinity),
and `⌊51p/20 + 1/2⌋ = ⌊(51p + 10)/20⌋`.  In particular
`shadeAmount (-10) = ⌊-500/20⌋ = -25`.  For the `percent = -10` used by the
application the IEEE-double product `2.55 * -10` is exactly `-25.5`, so exact
rational arithmetic is faithful to the source. -/
def shadeAmount (percent : ℤ) : ℤ := Int.fdiv (51 * percent + 10) 20

/-- One colour channel: extract, shift by `amount`, clamp to `[0, 255]`. -/
def shadeChannel (chan : Nat) (amount : ℤ) : ℤ :=
  max 0 (min 255 ((chan : ℤ) + amount))

/-- `adjustColorShade` on the character list of the colour string. -/
def adjustColorShadeL (hex : List Char) (percent : ℤ) : List Char :=
  let color := if hex.head? = some '#' then hex.tail else hex
  let color := if color.length = 3 then color.flatMap (fun c => [c, c]) else color
  let num := parseHex color
  let amount := shadeAmount percent
  let r := shadeChannel (num / 65536) amount
  let g := shadeChannel (num / 256 % 256) amount
  let b := shadeChannel (num % 256) amount
  '#' :: (toHex2 r.toNat ++ toHex2 g.toNat ++ toHex2 b.toNat)

/-- The colour-shade helper of `App.tsx`. -/
def adjustColorShade (hex : String) (percent : ℤ) : String :=
  ⟨adjustColorShadeL hex.data percent⟩

/-! ## JavaScript string predicates used by the rename coordinator -/

/-- The character class `\s` of a JavaScript regular expression
(ECMAScript WhiteSpace ∪ LineTerminator). -/
def jsIsSpace (c : Char) : Bool :=
  [' ', '\t', '\n', '\r', '\x0b', '\x0c', '\u00A0', '\u1680',
   '\u2000', '\u2001', '\u2002', '\u2003', '\u2004', '\u2005', '\u2006',
   '\u2007', '\u2008', '\u2009', '\u200A', '\u2028', '\u2029', '\u202F',
   '\u205F', '\u3000', '\uFEFF'].contains c

/-- `String.prototype.trim`: strip leading and trailing `\s` characters. -/
def jsTrimL (l : List Char) : List Char :=
  ((l.dropWhile jsIsSpace).reverse.dropWhile jsIsSpace).reverse

/-- `newId.trim()` as used by `handleRegionIdChange`. -/
def jsTrim (s : String) : String := ⟨jsTrimL s.data⟩

/-- `/\s/.test(s)`. -/
def hasWhitespace (s : String) : Bool := s.data.any jsIsSpace

/-! ## Annotation Store and application state

`customizationData` is a JavaScript object keyed by region id; we model it as
an insertion-ordered association list with unique keys, matching object
semantics for the operations used (`hasOwnProperty`, indexing, `delete`,
keyed insertion at the end). -/

/-- One annotation record (`RegionData` in `types.ts`).  The optional
`tooltipImageSrc` is modelled as a string, with `""` for absent. -/
structure RegionData where
  title : String
  description : String
  link : String
  tooltipImageSrc : String
deriving DecidableEq, Repr

/-- The Annotation Store (`customizationData`). -/
abbrev Store := List (String × RegionData)

/-- `customizationData.hasOwnProperty(k)`. -/
def storeHasKey (st : Store) (k : String) : Bool := st.any (fun e => e.1 = k)

/-- `customizationData[k]`, `undefined` modelled as `none`. -/
def storeLookup (st : Store) (k : String) : Option RegionData :=
  (st.find? (fun e => e.1 = k)).map (fun e => e.2)

/-- `delete obj[k]`. -/
def storeErase (st : Store) (k : String) : Store :=
  st.filter (fun e => ¬ e.1 = k)

/-- `{...prev, [k]: v}` / `obj[k] = v`: replace in place if the key exists,
otherwise append (JavaScript objects preserve insertion order). -/
def storeSet (st : Store) (k : String) (v : RegionData) : Store :=
  if storeHasKey st k then st.map (fun e => if e.1 = k then (k, v) else e)
  else st ++ [(k, v)]

/-- The store update of `handleRegionIdChange`:

      const newData = { ...prev };
      const regionInfo = newData[oldId];
      delete newData[oldId];
      if (regionInfo) { newData[trimmedNewId] = regionInfo; }

(`regionInfo` is an object, hence truthy exactly when the key was present;
in the success path `trimmedNewId` is not a key of the store). -/
def storeMove (st : Store) (oldId newId : String) : Store :=
  match storeLookup st oldId with
  | some rec => storeErase st oldId ++ [(newId, rec)]
  | none => storeErase st oldId

/-- Application state relevant to the rename coordinator: the SVG DOM is
reduced to its document-order list of element identifiers, alongside the
Annotation Store and the selected-region reference. -/
structure AppState where
  dom : List String
  store : Store
  selected : Option String
deriving DecidableEq, Repr

/-- The `idChangeOp` layout effect of `MapDisplay.tsx`: rewrite the id of the
first DOM element whose id is `oldId` (`querySelector` returns the first
match; the selector escaping is semantically the identity for lookup). -/
def domRename : List String → String → String → List String
  | [], _, _ => []
  | d :: r, oldId, newId =>
    if d = oldId then newId :: r else d :: domRename r oldId newId

/-- The rename coordinator: `handleRegionIdChange(oldId, newId)` of `App.tsx`
together with the DOM rewrite its `idChangeOp` triggers in `MapDisplay.tsx`
(the spec treats the three updates as one logical transaction).  Returns the
updated state and the boolean result reported to the caller. -/
def renameRegion (s : AppState) (oldId newId : String) : AppState × Bool :=
  if oldId = jsTrim newId then (s, true)
  else if (jsTrim newId).isEmpty || hasWhitespace (jsTrim newId) then (s, false)
  else if storeHasKey s.store (jsTrim newId) then (s, false)
  else ({ dom := domRename s.dom oldId (jsTrim newId),
          store := storeMove s.store oldId (jsTrim newId),
          selected := some (jsTrim newId) }, true)

/-! ## Region Indexer

The SVG-setup effect of `MapDisplay.tsx` (the exported script repeats the
identical assignment rule):

    let idCounter = 0;
    const elements = svg.querySelectorAll(CLICKABLE_ELEMENTS.join(', '));
    elements.forEach(el => {
      if (!element.id) { element.id = `map-region-` + (idCounter++); }
    });

`querySelectorAll` yields, in document order, the nodes whose tag matches one
of the listed kinds; a missing id attribute reads as `""`, which is falsy. -/

/-- A shape node of the SVG document: its tag name and its id (`""` when the
attribute is absent). -/
structure Shape where
  kind : String
  id : String
deriving DecidableEq, Repr

/-- `CLICKABLE_ELEMENTS`. -/
def clickableKinds : List String :=
  ["path", "g", "rect", "circle", "polygon", "ellipse"]

/-- The generated identifier `map-region-<n>`. -/
def regionName (n : Nat) : String := "map-region-" ++ toString n

/-- The `forEach` loop with the running `idCounter`. -/
def assignIds : List Shape → Nat → List Shape
  | [], _ => []
  | s :: r, n =>
    if s.id = "" then { s with id := regionName n } :: assignIds r (n + 1)
    else s :: assignIds r n

/-- Region indexing: filter the document-order node list to the clickable
kinds, then assign identifiers to the unnamed ones starting from counter 0. -/
def indexRegions (doc : List Shape) : List Shape :=
  assignIds (doc.filter (fun s => clickableKinds.contains s.kind)) 0

/-- Number of shapes in `l` that lack an identifier. -/
def countUnnamed (l : List Shape) : Nat :=
  (l.filter (fun s => s.id = "")).length

/-! ## Tooltip Geometry Engine

Screen geometry on exact rationals.  `ClickGeom` packages the inputs of the
click-mode placement: the region's `getBBox()` (SVG user space), the SVG
element's and the container's `getBoundingClientRect()`, the declared
`viewBox` dimensions and the measured tooltip content box. -/

structure ClickGeom where
  bboxX : ℚ
  bboxY : ℚ
  bboxW : ℚ
  bboxH : ℚ
  svgLeft : ℚ
  svgTop : ℚ
  svgW : ℚ
  svgH : ℚ
  vbW : ℚ
  vbH : ℚ
  contLeft : ℚ
  contTop : ℚ
  contW : ℚ
  contH : ℚ
  ttW : ℚ
  ttH : ℚ
deriving DecidableEq, Repr

/-- The click branch of the measure-then-place layout effect of
`MapDisplay.tsx`.  `top` and `left` are initialised to `0`; the geometry is
computed only when `svg.viewBox.baseVal.width > 0`, and the resulting
`(left, top)` pair is applied to the tooltip element unconditionally (the
degenerate case therefore applies the initial `(0, 0)`). -/
def editorClickPos (g : ClickGeom) : ℚ × ℚ :=
  if 0 < g.vbW then
    let scaleX := g.svgW / g.vbW
    let scaleY := g.svgH / g.vbH
    let elementCenterX := (g.svgLeft - g.contLeft) + (g.bboxX + g.bboxW / 2) * scaleX
    let elementTopY := (g.svgTop - g.contTop) + g.bboxY * scaleY
    let elementBottomY := (g.svgTop - g.contTop) + (g.bboxY + g.bboxH) * scaleY
    let top0 := elementTopY - g.ttH - 10
    let top := if top0 < 0 then elementBottomY + 10 else top0
    let left0 := elementCenterX - g.ttW / 2
    let left1 := if left0 < 0 then 10 else left0
    let left := if left1 + g.ttW > g.contW then g.contW - g.ttW - 10 else left1
    (left, top)
  else (0, 0)

/-- The click-mode placement of the exported standalone script
(`exportService.ts`).  It anchors on the region's centre point `(x, y)`,
compares the preferred top against `containerRect.top` (an absolute screen
coordinate), and performs no viewBox guard — the division is modelled on
rationals, so inputs are meaningful for `vbW ≠ 0` (the IEEE non-finite
results of a zero-width viewBox are outside this model). -/
def exportClickPos (g : ClickGeom) : ℚ × ℚ :=
  let scaleX := g.svgW / g.vbW
  let scaleY := g.svgH / g.vbH
  let x := g.svgLeft - g.contLeft + (g.bboxX + g.bboxW / 2) * scaleX
  let y := g.svgTop - g.contTop + (g.bboxY + g.bboxH / 2) * scaleY
  let left0 := x - g.ttW / 2
  let top0 := y - g.ttH - 10
  let top := if top0 < g.contTop then y + g.bboxH / 2 * scaleY + 10 else top0
  let left1 := if left0 < 0 then 10 else left0
  let left := if left1 + g.ttW > g.contW then g.contW - g.ttW - 10 else left1
  (left, top)

/-- `scaleY` of the click placement. -/
def clickScaleY (g : ClickGeom) : ℚ := g.svgH / g.vbH

/-- `elementCenterX`: the region's centre in container-relative screen
coordinates. -/
def clickCenterX (g : ClickGeom) : ℚ :=
  (g.svgLeft - g.contLeft) + (g.bboxX + g.bboxW / 2) * (g.svgW / g.vbW)

/-- `elementTopY`: the region's top edge in container-relative screen
coordinates. -/
def clickTopY (g : ClickGeom) : ℚ :=
  (g.svgTop - g.contTop) + g.bboxY * clickScaleY g

/-- `elementBottomY`: the region's bottom edge in container-relative screen
coordinates. -/
def clickBotY (g : ClickGeom) : ℚ :=
  (g.svgTop - g.contTop) + (g.bboxY + g.bboxH) * clickScaleY g

/-- Inputs of hover-mode placement: pointer position, window and container
rectangles, measured tooltip box. -/
structure HoverGeom where
  px : ℚ
  py : ℚ
  winW : ℚ
  winH : ℚ
  contLeft : ℚ
  contTop : ℚ
  contW : ℚ
  contH : ℚ
  ttW : ℚ
  ttH : ℚ
deriving DecidableEq, Repr

/-- The hover branch of the editor's layout effect: offset the pointer by 15,
flip each axis against the window dimensions, then convert to
container-relative coordinates. -/
def editorHoverPos (h : HoverGeom) : ℚ × ℚ :=
  let offsetX := (15 : ℚ)
  let left0 := h.px + offsetX
  let left1 := if left0 + h.ttW > h.winW then h.px - h.ttW - offsetX else left0
  let top0 := h.py + offsetX
  let top1 := if top0 + h.ttH > h.winH then h.py - h.ttH - offsetX else top0
  (left1 - h.contLeft, top1 - h.contTop)

/-- The hover placement of the exported script: container-relative from the
start (`pageX - containerRect.left + 15`; `pageX` coincides with the pointer's
client coordinate on an unscrolled page), flipping each axis against the
container dimensions. -/
def exportHoverPos (h : HoverGeom) : ℚ × ℚ :=
  let left0 := h.px - h.contLeft + 15
  let left1 := if left0 + h.ttW > h.contW then h.px - h.contLeft - h.ttW - 15 else left0
  let top0 := h.py - h.contTop + 15
  let top1 := if top0 + h.ttH > h.contH then h.py - h.contTop - h.ttH - 15 else top0
  (left1, top1)

/-! ## Interaction styling -/

/-- The Global Tooltip Settings of `types.ts` (font sizes in px). -/
structure GlobalSettings where
  tooltipTrigger : String
  tooltipBackgroundColor : String
  tooltipTextColor : String
  tooltipTitleFontSize : ℤ
  tooltipDescriptionFontSize : ℤ
  defaultRegionColor : String
  defaultRegionHoverColor : String
deriving DecidableEq, Repr

/-- The observable interaction state of one shape element: its id, inline
style properties, the originally captured stroke, and which families of
listeners are attached to it. -/
structure StyledElem where
  id : String
  fill : String
  stroke : String
  strokeWidth : String
  cursor : String
  origStroke : String
  hasHoverHandlers : Bool
  hasTooltipHandlers : Bool
  classMapRegion : Bool
deriving DecidableEq, Repr

/-- The styling effect of `MapDisplay.tsx` (applied to every element of the
clickable kinds, with no lookup of the Annotation Store):

    element.style.fill = globalSettings.defaultRegionColor;
    element.addEventListener('mouseenter', applyHover); ...
    if (isSelected) { stroke = accent, strokeWidth = 2px }
    else { stroke = originalStroke, strokeWidth = 1 }
    element.style.cursor = 'pointer';
-/
def editorStyleElem (settings : GlobalSettings) (mode : String)
    (selectedId : Option String) (e : StyledElem) : StyledElem :=
  let isSelected := mode = "edit" && selectedId = some e.id
  { e with
    fill := settings.defaultRegionColor
    hasHoverHandlers := true
    stroke := if isSelected then "#3b82f6" else e.origStroke
    strokeWidth := if isSelected then "2px" else "1"
    cursor := "pointer" }

/-- The per-region setup of the exported script, after id assignment: the
whole block is guarded by `if (data)`, where `data = customizationData[id]`.
Regions with a record get the `map-region` class (whose stylesheet rule sets
`cursor: pointer`), the default fill (`|| 'none'` for a falsy colour), the
trigger-dependent tooltip listeners and the hover fill handlers; regions
without a record are left untouched. -/
def exportSetupElem (store : Store) (settings : GlobalSettings)
    (e : StyledElem) : StyledElem :=
  match storeLookup store e.id with
  | none => e
  | some _ =>
    { e with
      classMapRegion := true
      cursor := "pointer"
      fill := if settings.defaultRegionColor = "" then "none"
              else settings.defaultRegionColor
      hasTooltipHandlers := true
      hasHoverHandlers := true }

/-! ## Customization panel initialisation (`CustomizationPanel.tsx`)

    const defaultData = { title: '', description: '', link: '', tooltipImageSrc: '' };
    const initialData = regionData ? { ...defaultData, ...regionData } : defaultData;
    if (!regionData) { onDataChange(selectedRegionId, initialData); }

The panel is mounted exactly when a region is selected, and `onDataChange`
writes the record into the Annotation Store. -/

/-- The all-empty record written for a freshly selected region. -/
def defaultRegionData : RegionData := ⟨"", "", "", ""⟩

/-- Store effect of the panel's initialisation for the selected region. -/
def panelInit (store : Store) (selectedRegionId : String) : Store :=
  match storeLookup store selectedRegionId with
  | some _ => store
  | none => storeSet store selectedRegionId defaultRegionData

/-- Selecting a region: the selection callback together with the store effect
of the panel the selection mounts. -/
def selectRegion (s : AppState) (id : String) : AppState :=
  { s with selected := some id, store := panelInit s.store id }

/-! ## Export Generator: escaping the SVG source (`exportService.ts`)

    svgContent.replace(/\\/g, '\\\\').replace(/`/g, '\\`')
              .replace(/\$\{/g, '\\${').replace(/<\/script>/gi, '<\\/script>')

Four sequential global replacements: double every backslash, escape every
backtick, escape every template-interpolation opener, and rewrite every
case-insensitive `</script>` to `<\/script>` (note: the replacement is the
fixed lowercase string). -/

/-- ASCII-case-insensitive character equality, as used by a non-unicode
JavaScript regular expression with the `i` flag: equal, or one is the ASCII
uppercase of the other (non-ASCII case folding does not apply across the
ASCII boundary in non-unicode mode). -/
def ciEq (a b : Char) : Bool :=
  a = b
  || (a.toNat + 32 = b.toNat && 65 ≤ a.toNat && a.toNat ≤ 90)
  || (b.toNat + 32 = a.toNat && 65 ≤ b.toNat && b.toNat ≤ 90)

/-- Does the character list start with a case-insensitive match of `pat`? -/
def matchesCI : List Char → List Char → Bool
  | [], _ => true
  | _ :: _, [] => false
  | p :: ps, c :: cs => ciEq c p && matchesCI ps cs

/-- A case-insensitive occurrence of `</script>` starts here. -/
def scHere (l : List Char) : Bool :=
  matchesCI ['<', '/', 's', 'c', 'r', 'i', 'p', 't', '>'] l

/-- Is `c` a hexadecimal digit? -/
def isHexDigitC (c : Char) : Bool :=
  ('0' ≤ c && c ≤ '9') || ('a' ≤ c && c ≤ 'f') || ('A' ≤ c && c ≤ 'F')

/-- Stage 1, `.replace(/\\/g, '\\\\')`: double every backslash. -/
def esc1 : List Char → List Char
  | [] => []
  | c :: r => if c = '\\' then '\\' :: '\\' :: esc1 r else c :: esc1 r

/-- Stage 2, `.replace(/`/g, '\\`')`: escape every backtick. -/
def esc2 : List Char → List Char
  | [] => []
  | c :: r => if c = '`' then '\\' :: '`' :: esc2 r else c :: esc2 r

/-- Stage 3, `.replace(/\$\{/g, '\\${')`: escape every `${` (leftmost,
non-overlapping, as a global regex replace scans). -/
def esc3 : List Char → List Char
  | '$' :: '{' :: r => '\\' :: '$' :: '{' :: esc3 r
  | c :: r => c :: esc3 r
  | [] => []

/-- Stage 4, `.replace(/<\/script>/gi, '<\\/script>')`: rewrite every
case-insensitive `</script>` to the fixed string `<\/script>`. -/
def esc4 : List Char → List Char
  | c0 :: c1 :: c2 :: c3 :: c4 :: c5 :: c6 :: c7 :: c8 :: r =>
    if scHere (c0 :: c1 :: c2 :: c3 :: c4 :: c5 :: c6 :: c7 :: c8 :: r) then
      '<' :: '\\' :: '/' :: 's' :: 'c' :: 'r' :: 'i' :: 'p' :: 't' :: '>' :: esc4 r
    else
      c0 :: esc4 (c1 :: c2 :: c3 :: c4 :: c5 :: c6 :: c7 :: c8 :: r)
  | l => l

/-- The composite escaping applied to the raw SVG text by `generateEmbedCode`
before splicing it into the exported script's template literal. -/
def escapeSvg (l : List Char) : List Char := esc4 (esc3 (esc2 (esc1 l)))

/-- String-level wrapper of `escapeSvg`. -/
def escapeSvgStr (s : String) : String := ⟨escapeSvg s.data⟩

/-- A single left-to-right scan equivalent to the four stages (proved
equivalent below); the stages' patterns use disjoint alphabets, so the
sequential replacements coincide with one prioritised scan. -/
def escAll : List Char → List Char
  | [] => []
  | '\\' :: r => '\\' :: '\\' :: escAll r
  | '`' :: r => '\\' :: '`' :: escAll r
  | '$' :: '{' :: r => '\\' :: '$' :: '{' :: escAll r
  | c0 :: c1 :: c2 :: c3 :: c4 :: c5 :: c6 :: c7 :: c8 :: r =>
    if scHere (c0 :: c1 :: c2 :: c3 :: c4 :: c5 :: c6 :: c7 :: c8 :: r) then
      '<' :: '\\' :: '/' :: 's' :: 'c' :: 'r' :: 'i' :: 'p' :: 't' :: '>' :: escAll r
    else
      c0 :: escAll (c1 :: c2 :: c3 :: c4 :: c5 :: c6 :: c7 :: c8 :: r)
  | c :: r => c :: escAll r

/-- Modelled from the spec: decoding "the body of a scripting template string
literal" — ECMAScript template-literal semantics, which are exercised by the
exported document but are no code of this repository.  Returns `none` when
the text is not a single well-formed literal body: an unescaped backtick
(terminating the literal early), an unescaped `${` (starting an
interpolation), a dangling final backslash, or an invalid escape sequence
(`\x`/`\u` with malformed digits, or the legacy octal forms that are syntax
errors inside templates).  `\r\n` and `\r` decode to `\n` (template values
normalise line terminators); brace-form `\u{...}` escapes are conservatively
left undecoded — the generator escapes every backslash, so no `\u` escape
ever reaches this decoder from `escapeSvg` output. -/
def decodeTemplate : List Char → Option (List Char)
  | [] => some []
  | '\\' :: rest =>
    (match rest with
     | [] => none
     | '\r' :: '\n' :: r => decodeTemplate r
     | '\r' :: r => decodeTemplate r
     | '\n' :: r => decodeTemplate r
     | 'x' :: h1 :: h2 :: r =>
       if isHexDigitC h1 && isHexDigitC h2 then
         (decodeTemplate r).map (fun t => Char.ofNat (16 * hexVal h1 + hexVal h2) :: t)
       else none
     | 'x' :: _ => none
     | 'u' :: h1 :: h2 :: h3 :: h4 :: r =>
       if h1 = '{' then none
       else if isHexDigitC h1 && isHexDigitC h2 && isHexDigitC h3 && isHexDigitC h4 then
         (decodeTemplate r).map (fun t =>
           Char.ofNat (4096 * hexVal h1 + 256 * hexVal h2 + 16 * hexVal h3 + hexVal h4) :: t)
       else none
     | 'u' :: _ => none
     | '0' :: c :: r =>
       if c.isDigit then none
       else (decodeTemplate (c :: r)).map (fun t => '\x00' :: t)
     | '0' :: [] => some ['\x00']
     | c :: r =>
       if c = 'n' then (decodeTemplate r).map (fun t => '\n' :: t)
       else if c = 't' then (decodeTemplate r).map (fun t => '\t' :: t)
       else if c = 'r' then (decodeTemplate r).map (fun t => '\r' :: t)
       else if c = 'b' then (decodeTemplate r).map (fun t => '\x08' :: t)
       else if c = 'f' then (decodeTemplate r).map (fun t => '\x0c' :: t)
       else if c = 'v' then (decodeTemplate r).map (fun t => '\x0b' :: t)
       else if c.isDigit then none
       else (decodeTemplate r).map (fun t => c :: t))
  | '$' :: '{' :: _ => none
  | '\r' :: '\n' :: r => (decodeTemplate r).map (fun t => '\n' :: t)
  | '\r' :: r => (decodeTemplate r).map (fun t => '\n' :: t)
  | c :: r =>
    if c = '`' then none
    else (decodeTemplate r).map (fun t => c :: t)

/-- The reference normalisation realised by escape-then-decode: the original
text with every case-insensitive `</script>` occurrence rewritten to
lowercase and line terminators `\r\n`/`\r` normalised to `\n` (the
line-terminator normalisation of template-literal values; a `\r` inside a
`</script>` match is impossible, so the priority between the two rules is
immaterial). -/
def lscNorm : List Char → List Char
  | [] => []
  | [c] => if c = '\r' then ['\n'] else [c]
  | c0 :: c1 :: c2 :: c3 :: c4 :: c5 :: c6 :: c7 :: c8 :: r =>
    if c0 = '\r' then
      if c1 = '\n' then '\n' :: lscNorm (c2 :: c3 :: c4 :: c5 :: c6 :: c7 :: c8 :: r)
      else '\n' :: lscNorm (c1 :: c2 :: c3 :: c4 :: c5 :: c6 :: c7 :: c8 :: r)
    else if scHere (c0 :: c1 :: c2 :: c3 :: c4 :: c5 :: c6 :: c7 :: c8 :: r) then
      '<' :: '/' :: 's' :: 'c' :: 'r' :: 'i' :: 'p' :: 't' :: '>' :: lscNorm r
    else
      c0 :: lscNorm (c1 :: c2 :: c3 :: c4 :: c5 :: c6 :: c7 :: c8 :: r)
  | c0 :: c1 :: r =>
    if c0 = '\r' then
      if c1 = '\n' then '\n' :: lscNorm r else '\n' :: lscNorm (c1 :: r)
    else c0 :: lscNorm (c1 :: r)

/-- Does any position of the list start a case-insensitive `</script>`?
(The sequence a browser's HTML tokenizer would need to see, in exactly this
form, to close the embedding script block via this pattern.) -/
def containsSC : List Char → Bool
  | [] => false
  | c :: r => scHere (c :: r) || containsSC r

/-! # Theorems -/

/-! ## Store lemmas -/

/-- Unfolding `storeHasKey` over a cons cell. -/
theorem storeHasKey_cons (e : String × RegionData) (st : Store) (k : String) :
    storeHasKey (e :: st) k = (decide (e.1 = k) || storeHasKey st k) := by
  simp [storeHasKey]

/-- Unfolding `storeLookup` over a matching head. -/
theorem storeLookup_cons_pos (e : String × RegionData) (st : Store) (k : String)
    (he : e.1 = k) : storeLookup (e :: st) k = some e.2 := by
  simp [storeLookup, List.find?_cons_of_pos, he]

/-- Unfolding `storeLookup` over a non-matching head. -/
theorem storeLookup_cons_neg (e : String × RegionData) (st : Store) (k : String)
    (he : ¬ e.1 = k) : storeLookup (e :: st) k = storeLookup st k := by
  simp [storeLookup, List.find?_cons_of_neg, he]

/-- Looking up the key just written by `storeSet` returns the written value. -/
theorem storeLookup_storeSet (st : Store) (k : String) (v : RegionData) :
    storeLookup (storeSet st k v) k = some v := by
  induction st with
  | nil => simp [storeSet, storeHasKey, storeLookup]
  | cons e st ih =>
    by_cases he : e.1 = k
    · simp only [storeSet, storeHasKey_cons, decide_eq_true he, Bool.true_or, if_true,
        List.map_cons, if_pos he]
      exact storeLookup_cons_pos _ _ _ rfl
    · rw [storeSet, storeHasKey_cons, decide_eq_false he, Bool.false_or]
      cases hk : storeHasKey st k with
      | true =>
        rw [if_pos rfl, List.map_cons, if_neg he,
          storeLookup_cons_neg _ _ _ he]
        have := ih
        rw [storeSet, hk, if_pos rfl] at this
        exact this
      | false =>
        rw [if_neg (by simp), List.cons_append, storeLookup_cons_neg _ _ _ he]
        have := ih
        rw [storeSet, hk, if_neg (by simp)] at this
        exact this

/-- A successful lookup implies the key is present. -/
theorem storeHasKey_of_lookup (st : Store) (k : String) (v : RegionData)
    (h : storeLookup st k = some v) : storeHasKey st k = true := by
  induction st with
  | nil => simp [storeLookup] at h
  | cons e st ih =>
    by_cases he : e.1 = k
    · simp [storeHasKey_cons, he]
    · rw [storeLookup_cons_neg _ _ _ he] at h
      simp [storeHasKey_cons, he, ih h]

/-! ## C10 — selecting an unannotated region creates an all-empty record -/

/-- **C10.**  Selecting a region whose identifier has no record in the
Annotation Store immediately creates a record for that identifier with
all-empty fields (`title`, `description`, `link` and `tooltipImageSrc` all
`""`); consequently every region that has ever been selected has a key in
the store (and is the selected region immediately after selection), even if
the user entered no content. -/
theorem panelInit_creates_empty_record :
    (∀ (st : Store) (id : String), storeLookup st id = none →
      storeLookup (panelInit st id) id = some defaultRegionData) ∧
    (∀ (s : AppState) (id : String),
      storeHasKey (selectRegion s id).store id = true ∧
      (selectRegion s id).selected = some id) := by
  have hcreate : ∀ (st : Store) (id : String), storeLookup st id = none →
      storeLookup (panelInit st id) id = some defaultRegionData := by
    intro st id h
    unfold panelInit
    rw [h]
    exact storeLookup_storeSet st id defaultRegionData
  refine ⟨hcreate, fun s id => ⟨?_, rfl⟩⟩
  show storeHasKey (panelInit s.store id) id = true
  cases h : storeLookup s.store id with
  | some v =>
    unfold panelInit
    rw [h]
    exact storeHasKey_of_lookup _ _ _ h
  | none => exact storeHasKey_of_lookup _ _ _ (hcreate s.store id h)

/-- Witness for C10 at a concrete state: selecting the never-annotated
region `r1` in an empty store yields the all-empty record. -/
theorem panelInit_creates_empty_record_witness :
    storeLookup (panelInit [] "r1") "r1" = some defaultRegionData :=
  panelInit_creates_empty_record.1 [] "r1" (by decide)

/-! ## C2 — effects of a successful rename -/

/-- **C3 counterexample.**  The claim states a rename fails whenever `newId`
contains whitespace.  But `handleRegionIdChange` trims `newId` first: with
`oldId = "foo"`, renaming to `" foo"` (which contains whitespace) trims to
`"foo" = oldId` and *succeeds*. -/
theorem renameRegion_whitespace_claim_false :
    (renameRegion ⟨["foo"], [("foo", ⟨"t", "", "", ""⟩)], some "foo"⟩
        "foo" " foo").2 = true ∧
    hasWhitespace " foo" = true := by
  decide

/-- **C3 (amended).**  `renameRegion oldId newId` first trims `newId`; with
`t = trim newId`, it returns failure if and only if `t ≠ oldId` and (`t` is
empty, or `t` still contains whitespace — necessarily interior — or `t`
already exists in the store as a key, necessarily distinct from `oldId`);
renaming an id to anything that trims to itself succeeds.  On every failure
the DOM, the Annotation Store and the selected-region reference are all left
unchanged. -/
theorem renameRegion_failure_iff (s : AppState) (oldId newId : String) :
    ((renameRegion s oldId newId).2 = false ↔
      (jsTrim newId ≠ oldId ∧
        ((jsTrim newId).isEmpty = true ∨ hasWhitespace (jsTrim newId) = true ∨
         storeHasKey s.store (jsTrim newId) = true))) ∧
    ((renameRegion s oldId newId).2 = false → (renameRegion s oldId newId).1 = s) := by
  unfold renameRegion
  split_ifs with h1 h2 h3
  · simp [h1.symm]
  · simp only [Bool.or_eq_true] at h2
    refine ⟨iff_of_true rfl ⟨Ne.symm h1, ?_⟩, fun _ => rfl⟩
    rcases h2 with h | h
    · exact Or.inl h
    · exact Or.inr (Or.inl h)
  · exact ⟨iff_of_true rfl ⟨Ne.symm h1, Or.inr (Or.inr h3)⟩, fun _ => rfl⟩
  · constructor
    · apply iff_of_false (by simp)
      rintro ⟨-, h | h | h⟩
      · exact h2 (by simp [h])
      · exact h2 (by simp [h])
      · exact h3 h
    · intro hf
      simp at hf

/-- Witness for C3 at a concrete failing rename: `"a" → "b c"` fails (the
trimmed id has interior whitespace) and leaves the state unchanged. -/
theorem renameRegion_failure_iff_witness :
    (renameRegion ⟨["a"], [("a", ⟨"t", "", "", ""⟩)], some "a"⟩ "a" "b c").1 =
      ⟨["a"], [("a", ⟨"t", "", "", ""⟩)], some "a"⟩ :=
  (renameRegion_failure_iff ⟨["a"], [("a", ⟨"t", "", "", ""⟩)], some "a"⟩ "a" "b c").2
    (by decide)

/-! ## C4 — identifier assignment in traversal order -/

/-- Counting unnamed shapes over a cons cell. -/
theorem countUnnamed_cons (s : Shape) (l : List Shape) :
    countUnnamed (s :: l) = (if s.id = "" then 1 else 0) + countUnnamed l := by
  by_cases h : s.id = "" <;> simp [countUnnamed, List.filter_cons, h, Nat.add_comm]

/-- Pointwise characterisation of the counter-threading loop: the shape at
position `i` keeps its identifier if it has one, and otherwise receives
`regionName` of the starting counter plus the number of unnamed shapes
strictly before position `i`. -/
theorem assignIds_getElem? (l : List Shape) (n i : Nat) :
    (assignIds l n)[i]? = (l[i]?).map
      (fun s => if s.id = "" then
          { s with id := regionName (n + countUnnamed (l.take i)) } else s) := by
  induction l generalizing n i with
  | nil => simp [assignIds]
  | cons s r ih =>
    cases i with
    | zero =>
      by_cases h : s.id = "" <;>
        simp [assignIds, h, countUnnamed]
    | succ i =>
      by_cases h : s.id = ""
      · rw [assignIds, if_pos h]
        simp only [List.getElem?_cons_succ, ih, List.take_succ_cons,
          countUnnamed_cons, if_pos h, Nat.add_assoc]
      · rw [assignIds, if_neg h]
        simp only [List.getElem?_cons_succ, ih, List.take_succ_cons,
          countUnnamed_cons, if_neg h, Nat.zero_add]

/-- **C4.**  Region indexing visits the shapes of the kinds
{path, g, rect, circle, polygon, ellipse} in document order; the shape at
position `i` of the filtered traversal keeps its identifier when it already
carries one (consuming no counter value), and otherwise is assigned
`map-region-<n>` where `n` is the number of identifier-lacking shapes
strictly before it — i.e. the counter starts at 0 and increments once per
assignment in traversal order. -/
theorem indexRegions_spec (doc : List Shape) (i : Nat) :
    (indexRegions doc)[i]? =
      ((doc.filter (fun s => clickableKinds.contains s.kind))[i]?).map
        (fun s => if s.id = "" then
            { s with id := regionName (countUnnamed
                ((doc.filter (fun s => clickableKinds.contains s.kind)).take i)) }
          else s) := by
  unfold indexRegions
  simpa using assignIds_getElem? (doc.filter (fun s => clickableKinds.contains s.kind)) 0 i

/-! ## C5 — click-mode placement of the editor's geometry engine -/

/-- **C5.**  In click trigger mode (with a positive viewBox width), the
editor places the tooltip top at `regionTopY - tooltipHeight - 10`, falling
back to `regionBottomY + 10` exactly when the preferred top is above the
container's top edge (negative in container-relative coordinates); the left
is the region's centre minus half the tooltip width, then clamped
sequentially: a negative left becomes exactly `10`, and a left whose right
edge exceeds the container width becomes `containerWidth - tooltipWidth - 10`
(when both clamps fire — a tooltip wider than the container — the second
prevails). -/
theorem editorClickPos_claim (g : ClickGeom) (hv : 0 < g.vbW) :
    ((clickTopY g - g.ttH - 10 < 0 → (editorClickPos g).2 = clickBotY g + 10) ∧
     (0 ≤ clickTopY g - g.ttH - 10 →
        (editorClickPos g).2 = clickTopY g - g.ttH - 10)) ∧
    ((0 ≤ clickCenterX g - g.ttW / 2 ∧ clickCenterX g - g.ttW / 2 + g.ttW ≤ g.contW →
        (editorClickPos g).1 = clickCenterX g - g.ttW / 2) ∧
     (clickCenterX g - g.ttW / 2 < 0 ∧ 10 + g.ttW ≤ g.contW →
        (editorClickPos g).1 = 10) ∧
     (0 ≤ clickCenterX g - g.ttW / 2 ∧ g.contW < clickCenterX g - g.ttW / 2 + g.ttW →
        (editorClickPos g).1 = g.contW - g.ttW - 10) ∧
     (clickCenterX g - g.ttW / 2 < 0 ∧ g.contW < 10 + g.ttW →
        (editorClickPos g).1 = g.contW - g.ttW - 10)) := by
  simp only [editorClickPos, if_pos hv, clickCenterX, clickTopY, clickBotY, clickScaleY]
  refine ⟨⟨fun h => ?_, fun h => ?_⟩, fun h => ?_, fun h => ?_, fun h => ?_, fun h => ?_⟩ <;>
    split_ifs <;> first
      | rfl
      | (exfalso; rcases h with ⟨h1, h2⟩ <;> linarith)
      | linarith

/-- Witness for C5 at a concrete geometry (region box `(0,50)–(100,90)` in a
`200×200` viewBox rendered at scale 1): the preferred top `20` fits, and the
naturally centred left `0` needs no clamping. -/
theorem editorClickPos_claim_witness :
    (editorClickPos ⟨0, 50, 100, 40, 0, 0, 200, 200, 200, 200, 0, 0, 400, 400, 100, 20⟩).2 =
      clickTopY ⟨0, 50, 100, 40, 0, 0, 200, 200, 200, 200, 0, 0, 400, 400, 100, 20⟩ - 20 - 10 ∧
    (editorClickPos ⟨0, 50, 100, 40, 0, 0, 200, 200, 200, 200, 0, 0, 400, 400, 100, 20⟩).1 =
      clickCenterX ⟨0, 50, 100, 40, 0, 0, 200, 200, 200, 200, 0, 0, 400, 400, 100, 20⟩ - 100 / 2 :=
  ⟨(editorClickPos_claim _ (by norm_num)).1.2 (by norm_num [clickTopY, clickScaleY]),
   (editorClickPos_claim _ (by norm_num)).2.1
     (by norm_num [clickCenterX])⟩

/-! ## C1 — export fidelity of tooltip placement -/

/-- **C1 counterexample.**  A fixed geometry on which the exported script and
the editor's engine disagree in both trigger modes.  Click mode (region box
`(0,50)–(100,90)`, scale 1, tooltip `100×20`): the editor computes top
`50 - 20 - 10 = 20` from the region's top edge, the export computes
`70 - 20 - 10 = 40` from the region's vertical centre.  Hover mode (pointer
`x = 350`, window width 800, container width 400, tooltip width 100): the
editor keeps `365` (no window overflow), the export flips against the
container to `235`. -/
theorem export_fidelity_claim_false :
    editorClickPos ⟨0, 50, 100, 40, 0, 0, 200, 200, 200, 200, 0, 0, 400, 400, 100, 20⟩ ≠
      exportClickPos ⟨0, 50, 100, 40, 0, 0, 200, 200, 200, 200, 0, 0, 400, 400, 100, 20⟩ ∧
    editorHoverPos ⟨350, 100, 800, 600, 0, 0, 400, 300, 100, 20⟩ ≠
      exportHoverPos ⟨350, 100, 800, 600, 0, 0, 400, 300, 100, 20⟩ := by
  have h1 : editorClickPos ⟨0, 50, 100, 40, 0, 0, 200, 200, 200, 200, 0, 0, 400, 400, 100, 20⟩
      = (0, 20) := by
    norm_num [editorClickPos]
  have h2 : exportClickPos ⟨0, 50, 100, 40, 0, 0, 200, 200, 200, 200, 0, 0, 400, 400, 100, 20⟩
      = (0, 40) := by
    norm_num [exportClickPos]
  have h3 : editorHoverPos ⟨350, 100, 800, 600, 0, 0, 400, 300, 100, 20⟩ = (365, 115) := by
    norm_num [editorHoverPos]
  have h4 : exportHoverPos ⟨350, 100, 800, 600, 0, 0, 400, 300, 100, 20⟩ = (235, 115) := by
    norm_num [exportHoverPos]
  rw [h1, h2, h3, h4]
  norm_num [Prod.ext_iff]

/-- **C1 (amended).**  For every region geometry with a positive viewBox
width, the *left* coordinate of the click-mode placement agrees between the
exported script and the editor's engine (both centre horizontally and clamp
identically).  The top coordinates and the hover-mode positions need not
agree: the export anchors the preferred top on the region's vertical centre
rather than its top edge, compares it against the container's absolute
screen top rather than 0, and flips hover placement against the container
rather than the window. -/
theorem export_click_left_agrees (g : ClickGeom) (hv : 0 < g.vbW) :
    (editorClickPos g).1 = (exportClickPos g).1 := by
  simp only [editorClickPos, exportClickPos, if_pos hv]

/-- Witness for C1 (amended) at the counterexample geometry: both engines
compute left `0` there. -/
theorem export_click_left_agrees_witness :
    (editorClickPos ⟨0, 50, 100, 40, 0, 0, 200, 200, 200, 200, 0, 0, 400, 400, 100, 20⟩).1 =
      (exportClickPos ⟨0, 50, 100, 40, 0, 0, 200, 200, 200, 200, 0, 0, 400, 400, 100, 20⟩).1 :=
  export_click_left_agrees _ (by decide)

/-! ## C8 — degenerate viewBox -/

/-- **C8 counterexample.**  With a zero-width viewBox the editor's layout
effect does not leave the tooltip unpositioned: `top` and `left` are
initialised to `0`, the click branch is skipped, and the effect applies the
position `(0, 0)` to the tooltip element (and reveals it with opacity 1) —
a position *is* produced.  (The exported script instead divides by the zero
width unguarded; its IEEE non-finite results are outside this rational
model.) -/
theorem editor_degenerate_applies_origin :
    editorClickPos ⟨0, 50, 100, 40, 0, 0, 200, 200, 0, 200, 0, 0, 400, 400, 100, 20⟩ =
      (0, 0) := by
  decide

/-- **C8 (amended).**  For every region, when the SVG's viewBox width is
non-positive the editor's click placement performs no scale division and
applies the initialised position `(0, 0)` — it does not throw, but neither
does it leave the tooltip unpositioned. -/
theorem editorClickPos_degenerate (g : ClickGeom) (h : g.vbW ≤ 0) :
    editorClickPos g = (0, 0) := by
  simp only [editorClickPos, if_neg (not_lt.2 h)]

/-- Witness for C8 (amended) at a negative-width viewBox. -/
theorem editorClickPos_degenerate_witness :
    editorClickPos ⟨5, 5, 10, 10, 0, 0, 300, 300, -1, 300, 0, 0, 500, 500, 80, 30⟩ =
      (0, 0) :=
  editorClickPos_degenerate _ (by decide)

/-! ## C7 — interactivity gating by the Annotation Store -/

/-- **C7 counterexample.**  In the live editor, the styling effect iterates
over *all* elements of the clickable kinds with no Annotation Store lookup:
an element whose id (`orphan`) has no record still has its fill overwritten
with the default region colour, its cursor set to `pointer`, and hover
fill handlers attached — it is not left inert as the claim states. -/
theorem editor_styles_dataless_region :
    storeLookup [] "orphan" = none ∧
    (editorStyleElem ⟨"hover", "#111827", "#FFFFFF", 16, 14, "#FBBF24", "#e2a60b"⟩
        "edit" none ⟨"orphan", "green", "black", "1", "auto", "black",
          false, false, false⟩).fill = "#FBBF24" ∧
    (editorStyleElem ⟨"hover", "#111827", "#FFFFFF", 16, 14, "#FBBF24", "#e2a60b"⟩
        "edit" none ⟨"orphan", "green", "black", "1", "auto", "black",
          false, false, false⟩).cursor = "pointer" ∧
    (editorStyleElem ⟨"hover", "#111827", "#FFFFFF", 16, 14, "#FBBF24", "#e2a60b"⟩
        "edit" none ⟨"orphan", "green", "black", "1", "auto", "black",
          false, false, false⟩).hasHoverHandlers = true := by
  decide

/-- **C7 (amended).**  In the *exported artifact*, a region whose identifier
has no record in the snapshot receives no interaction behaviour at all: its
element is returned untouched (no fill/class/cursor change, no listeners).
In the *live editor*, by contrast, the styling effect unconditionally sets
every clickable element's fill to the default region colour, its cursor to
`pointer`, and attaches hover fill handlers, record or not. -/
theorem interaction_gating (st : Store) (settings : GlobalSettings)
    (mode : String) (sel : Option String) (e : StyledElem) :
    (storeLookup st e.id = none → exportSetupElem st settings e = e) ∧
    ((editorStyleElem settings mode sel e).fill = settings.defaultRegionColor ∧
     (editorStyleElem settings mode sel e).cursor = "pointer" ∧
     (editorStyleElem settings mode sel e).hasHoverHandlers = true) := by
  constructor
  · intro h
    simp [exportSetupElem, h]
  · exact ⟨rfl, rfl, rfl⟩

/-- Witness for C7 (amended): a dataless region of the export is untouched. -/
theorem interaction_gating_witness :
    exportSetupElem [] ⟨"hover", "#111827", "#FFFFFF", 16, 14, "#FBBF24", "#e2a60b"⟩
        ⟨"orphan", "green", "black", "1", "auto", "black", false, false, false⟩ =
      ⟨"orphan", "green", "black", "1", "auto", "black", false, false, false⟩ :=
  (interaction_gating [] ⟨"hover", "#111827", "#FFFFFF", 16, 14, "#FBBF24", "#e2a60b"⟩
    "edit" none ⟨"orphan", "green", "black", "1", "auto", "black", false, false, false⟩).1
    (by decide)

/-! ## C6 — the colour-shade derivation -/

/-- `hexVal` inverts `hexChar` on digit values. -/
theorem hexVal_hexChar (d : Nat) (h : d < 16) : hexVal (hexChar d) = d := by
  interval_cases d <;> decide

/-- Folding `parseHex`'s step from an arbitrary accumulator. -/
theorem parseHex_foldl (l : List Char) (A : Nat) :
    l.foldl (fun a c => 16 * a + hexVal c) A = A * 16 ^ l.length + parseHex l := by
  induction l generalizing A with
  | nil => simp [parseHex]
  | cons c r ih =>
    simp only [List.foldl_cons, parseHex, List.length_cons]
    rw [ih (16 * A + hexVal c), ih (16 * 0 + hexVal c)]
    ring

/-- `parseHex` over an append. -/
theorem parseHex_append (xs ys : List Char) :
    parseHex (xs ++ ys) = parseHex xs * 16 ^ ys.length + parseHex ys := by
  simp only [parseHex, List.foldl_append]
  exact parseHex_foldl ys (xs.foldl (fun a c => 16 * a + hexVal c) 0)

/-- `parseHex` inverts the two-digit render of a channel value. -/
theorem parseHex_toHex2 (n : Nat) (h : n < 256) : parseHex (toHex2 n) = n := by
  simp only [toHex2, parseHex, List.foldl_cons, List.foldl_nil]
  rw [hexVal_hexChar (n / 16) (by omega), hexVal_hexChar (n % 16) (by omega)]
  omega

/-- `parseHex` of a six-digit colour assembled from its channels. -/
theorem parseHex_three (r g b : Nat) (hr : r < 256) (hg : g < 256) (hb : b < 256) :
    parseHex (toHex2 r ++ toHex2 g ++ toHex2 b) = 65536 * r + 256 * g + b := by
  rw [parseHex_append, parseHex_append, parseHex_toHex2 r hr, parseHex_toHex2 g hg,
    parseHex_toHex2 b hb]
  simp [toHex2]
  ring

/-- **C6 counterexample.**  The claim asserts
`shade("#FBBF24", -10)` equals the channel triple `(0xFB-26, 0xBF-26,
0x24-26) = (223, 165, 13)` — i.e. `#dfa50d`.  The code computes
`Math.round(2.55 × -10) = Math.round(-25.5) = -25` (JavaScript rounds half
toward positive infinity), giving channels `(226, 166, 11)` = `#e2a60b`.
This differs both from the claim's stated triple (`#dfa50d`, whose
arithmetic is itself inconsistent: `0xFB - 26 = 225`, not 223) and from the
value a shift of `-26` would give (`(225, 165, 10)` = `#e1a50a`). -/
theorem adjustColorShade_claim_false :
    adjustColorShade "#FBBF24" (-10) = "#e2a60b" ∧
    ("#e2a60b" : String) ≠ "#dfa50d" ∧
    ("#e2a60b" : String) ≠ "#e1a50a" := by
  decide

/-- **C6 (amended).**  The colour-shade derivation expands 3-hex-digit
shorthand by digit-doubling, shifts each 8-bit channel by
`jsRound(2.55 × percent)` where `jsRound` rounds half toward positive
infinity — so for `percent = -10` the shift is `-25`, not `-26` —, clamps
each channel independently to `[0, 255]`, and re-encodes as a 6-digit
lowercase hex string; in particular `shade("#FBBF24", -10) = "#e2a60b"`
(channels `(226, 166, 11)`). -/
theorem adjustColorShade_spec :
    (∀ r g b : Nat, r < 256 → g < 256 → b < 256 → ∀ p : ℤ,
      adjustColorShadeL ('#' :: (toHex2 r ++ toHex2 g ++ toHex2 b)) p =
        '#' :: (toHex2 (shadeChannel r (shadeAmount p)).toNat ++
                toHex2 (shadeChannel g (shadeAmount p)).toNat ++
                toHex2 (shadeChannel b (shadeAmount p)).toNat)) ∧
    (∀ (cs : List Char) (p : ℤ), cs.length = 3 →
      adjustColorShadeL ('#' :: cs) p =
        adjustColorShadeL ('#' :: cs.flatMap (fun c => [c, c])) p) ∧
    shadeAmount (-10) = -25 ∧
    adjustColorShade "#FBBF24" (-10) = "#e2a60b" := by
  refine ⟨?_, ?_, by decide, by decide⟩
  · intro r g b hr hg hb p
    have hlen : (toHex2 r ++ toHex2 g ++ toHex2 b).length = 6 := by simp [toHex2]
    simp only [adjustColorShadeL, List.head?_cons, if_true, List.tail_cons, hlen]
    rw [if_neg (by omega : ¬(6 = 3))]
    rw [parseHex_three r g b hr hg hb]
    have h1 : (65536 * r + 256 * g + b) / 65536 = r := by omega
    have h2 : (65536 * r + 256 * g + b) / 256 % 256 = g := by omega
    have h3 : (65536 * r + 256 * g + b) % 256 = b := by omega
    rw [h1, h2, h3]
  · intro cs p h3
    obtain ⟨a, b, c, rfl⟩ := List.length_eq_three.1 h3
    simp [adjustColorShadeL, List.flatMap]

/-- Witness for C6 (amended) on the application's default colour. -/
theorem adjustColorShade_spec_witness :
    adjustColorShadeL ('#' :: (toHex2 251 ++ toHex2 191 ++ toHex2 36)) (-10) =
      '#' :: (toHex2 226 ++ toHex2 166 ++ toHex2 11) := by
  have h := adjustColorShade_spec.1 251 191 36 (by decide) (by decide) (by decide) (-10)
  rw [h]
  decide

/-! ## C9 — escaping the SVG source for the exported template literal

The development below proves that the four sequential replacements of
`generateEmbedCode` equal the single prioritised scan `escAll`, and that
decoding the escaped text as a template-literal body yields `lscNorm` of the
original (the original with case-variant `</script>` occurrences lowercased
and `\r\n`/`\r` normalised to `\n`), never failing — in particular no input
can terminate the literal early — and that the escaped text contains no
case-insensitive `</script>` occurrence. -/

/-- A character ci-equal to a pattern character is distinct from any
character that is not ci-equal to it. -/
theorem ne_of_ciEq (q : Char) {c p : Char} (h : ciEq c p = true)
    (hq : ciEq q p = false) : c ≠ q := by
  intro he
  subst he
  simp [h] at hq

/-- Only `<` itself is ci-equal to `<`. -/
theorem eq_lt_of_ciEq {c : Char} (h : ciEq c '<' = true) : c = '<' := by
  simp only [ciEq, Bool.or_eq_true, Bool.and_eq_true, decide_eq_true_eq] at h
  have hlt : '<'.toNat = 60 := by decide
  rcases h with (h | ⟨⟨h1, h2⟩, h3⟩) | ⟨⟨h1, h2⟩, h3⟩
  · exact h
  · omega
  · omega

/-- `scHere` is false when the head is not `<`. -/
theorem scHere_false_of_ne_lt {c : Char} (h : c ≠ '<') (r : List Char) :
    scHere (c :: r) = false := by
  cases hci : ciEq c '<' with
  | true => exact absurd (eq_lt_of_ciEq hci) h
  | false => simp [scHere, matchesCI, hci]

/-- `scHere` only inspects the first nine characters. -/
theorem scHere_nine (c0 c1 c2 c3 c4 c5 c6 c7 c8 : Char) (x y : List Char) :
    scHere (c0 :: c1 :: c2 :: c3 :: c4 :: c5 :: c6 :: c7 :: c8 :: x) =
      scHere (c0 :: c1 :: c2 :: c3 :: c4 :: c5 :: c6 :: c7 :: c8 :: y) := by
  simp [scHere, matchesCI]

/-! ### Single-stage scan lemmas -/

/-- `esc1` doubles a leading backslash. -/
theorem esc1_bs (r : List Char) : esc1 ('\\' :: r) = '\\' :: '\\' :: esc1 r := by
  simp [esc1]

/-- `esc1` passes a non-backslash head through. -/
theorem esc1_cons {c : Char} (h : c ≠ '\\') (r : List Char) :
    esc1 (c :: r) = c :: esc1 r := by
  simp [esc1, h]

/-- `esc2` escapes a leading backtick. -/
theorem esc2_bt (r : List Char) : esc2 ('`' :: r) = '\\' :: '`' :: esc2 r := by
  simp [esc2]

/-- `esc2` passes a non-backtick head through. -/
theorem esc2_cons {c : Char} (h : c ≠ '`') (r : List Char) :
    esc2 (c :: r) = c :: esc2 r := by
  simp [esc2, h]

/-- `esc3` escapes a leading `${`. -/
theorem esc3_db (r : List Char) : esc3 ('$' :: '{' :: r) = '\\' :: '$' :: '{' :: esc3 r :=
  rfl

/-- `esc3` passes a non-dollar head through. -/
theorem esc3_cons {c : Char} (h : c ≠ '$') (r : List Char) :
    esc3 (c :: r) = c :: esc3 r := by
  rw [esc3.eq_def]
  split
  · rename_i r' heq
    rw [List.cons.injEq] at heq
    exact absurd heq.1 h
  · rename_i c' r' heq
    rw [List.cons.injEq] at heq
    obtain ⟨h1, h2⟩ := heq
    subst h1; subst h2; rfl
  · rename_i heq
    cases heq

/-- `esc3` passes a dollar not followed by `{` through. -/
theorem esc3_dollar {r : List Char} (h : r.head? ≠ some '{') :
    esc3 ('$' :: r) = '$' :: esc3 r := by
  rw [esc3.eq_def]
  split
  · rename_i r' heq
    rw [List.cons.injEq] at heq
    rw [heq.2] at h
    simp at h
  · rename_i c' r' heq
    rw [List.cons.injEq] at heq
    obtain ⟨h1, h2⟩ := heq
    subst h1; subst h2; rfl
  · rename_i heq
    cases heq

/-- `esc4` leaves lists shorter than the pattern unchanged. -/
theorem esc4_short {l : List Char} (h : l.length < 9) : esc4 l = l := by
  rw [esc4.eq_def]
  split
  · simp only [List.length_cons] at h
    omega
  · rfl

/-- `esc4` rewrites a leading case-insensitive `</script>`. -/
theorem esc4_sc {c0 c1 c2 c3 c4 c5 c6 c7 c8 : Char} {r : List Char}
    (h : scHere (c0 :: c1 :: c2 :: c3 :: c4 :: c5 :: c6 :: c7 :: c8 :: r) = true) :
    esc4 (c0 :: c1 :: c2 :: c3 :: c4 :: c5 :: c6 :: c7 :: c8 :: r) =
      '<' :: '\\' :: '/' :: 's' :: 'c' :: 'r' :: 'i' :: 'p' :: 't' :: '>' :: esc4 r := by
  simp [esc4, h]

/-- `esc4` passes the head through when no match starts at it. -/
theorem esc4_cons {c : Char} {r : List Char} (h : scHere (c :: r) = false) :
    esc4 (c :: r) = c :: esc4 r := by
  rcases r with _ | ⟨c1, _ | ⟨c2, _ | ⟨c3, _ | ⟨c4, _ | ⟨c5, _ | ⟨c6, _ | ⟨c7, _ | ⟨c8, r⟩⟩⟩⟩⟩⟩⟩⟩ <;>
    first
    | rw [esc4_short (by decide), esc4_short (by decide)]
    | simp [esc4, h]


/-- `escAll` rewrites a leading case-insensitive `</script>`. -/
theorem escAll_sc {c0 c1 c2 c3 c4 c5 c6 c7 c8 : Char} {r : List Char}
    (h : scHere (c0 :: c1 :: c2 :: c3 :: c4 :: c5 :: c6 :: c7 :: c8 :: r) = true) :
    escAll (c0 :: c1 :: c2 :: c3 :: c4 :: c5 :: c6 :: c7 :: c8 :: r) =
      '<' :: '\\' :: '/' :: 's' :: 'c' :: 'r' :: 'i' :: 'p' :: 't' :: '>' :: escAll r := by
  have h0 : ciEq c0 '<' = true := by
    have h' := h
    simp only [scHere, matchesCI, Bool.and_eq_true] at h'
    exact h'.1
  obtain rfl := eq_lt_of_ciEq h0
  simp [escAll, h]

/-- A `</script>` match forces a `<` head and at least nine characters. -/
theorem scHere_decomp {c0 : Char} {r : List Char} (h : scHere (c0 :: r) = true) :
    c0 = '<' ∧ ∃ c1 c2 c3 c4 c5 c6 c7 c8 r',
      r = c1 :: c2 :: c3 :: c4 :: c5 :: c6 :: c7 :: c8 :: r' := by
  constructor
  · apply eq_lt_of_ciEq
    have h' := h
    simp only [scHere, matchesCI, Bool.and_eq_true] at h'
    exact h'.1
  · rcases r with _ | ⟨c1, _ | ⟨c2, _ | ⟨c3, _ | ⟨c4, _ | ⟨c5, _ | ⟨c6, _ | ⟨c7, _ | ⟨c8, r'⟩⟩⟩⟩⟩⟩⟩⟩ <;>
      first
      | exact ⟨c1, c2, c3, c4, c5, c6, c7, c8, r', rfl⟩
      | (exfalso; simp [scHere, matchesCI] at h)

/-- `escAll` doubles a leading backslash. -/
theorem escAll_bs (r : List Char) : escAll ('\\' :: r) = '\\' :: '\\' :: escAll r := by
  simp [escAll]
/-- `escAll` escapes a leading backtick. -/
theorem escAll_bt (r : List Char) : escAll ('`' :: r) = '\\' :: '`' :: escAll r := by
  simp [escAll]
/-- `escAll` escapes a leading `${`. -/
theorem escAll_db (r : List Char) : escAll ('$' :: '{' :: r) = '\\' :: '$' :: '{' :: escAll r := by
  simp [escAll]

/-- `escAll` passes an unremarkable head through. -/
theorem escAll_default {c : Char} {r : List Char} (h1 : c ≠ '\\') (h2 : c ≠ '`')
    (h3 : ¬(c = '$' ∧ r.head? = some '{')) (h4 : scHere (c :: r) = false) :
    escAll (c :: r) = c :: escAll r := by
  rw [escAll.eq_def]
  split
  · rename_i heq; cases heq
  · rename_i r' heq
    rw [List.cons.injEq] at heq
    exact absurd heq.1 h1
  · rename_i r' heq
    rw [List.cons.injEq] at heq
    exact absurd heq.1 h2
  · rename_i r' heq
    rw [List.cons.injEq] at heq
    exact absurd ⟨heq.1, by rw [heq.2]; rfl⟩ h3
  · rename_i c0 c1 c2 c3 c4 c5 c6 c7 c8 r' heq
    rw [List.cons.injEq] at heq
    obtain ⟨hc, hr⟩ := heq
    subst hc; subst hr
    rw [if_neg (by simp [h4])]
  · rename_i c' r' heq
    rw [List.cons.injEq] at heq
    obtain ⟨hc, hr⟩ := heq
    subst hc; subst hr
    rfl

/-- `escAll` creates no new head characters other than `\\` and `<`. -/
theorem escAll_head {c : Char} (hbs : c ≠ '\\') (hlt : c ≠ '<') :
    ∀ r : List Char, (escAll r).head? = some c → r.head? = some c := by
  intro r hh
  cases r with
  | nil => simp [escAll] at hh
  | cons c0 r0 =>
    by_cases h0 : c0 = '\\'
    · subst h0
      rw [escAll_bs] at hh
      simp at hh
      exact absurd hh.symm hbs
    · by_cases h1 : c0 = '`'
      · subst h1
        rw [escAll_bt] at hh
        simp at hh
        exact absurd hh.symm hbs
      · by_cases h2 : c0 = '$' ∧ r0.head? = some '{'
        · obtain ⟨rfl, hh2⟩ := h2
          rcases r0 with _ | ⟨a, r1⟩
          · simp at hh2
          · simp at hh2
            subst hh2
            rw [escAll_db] at hh
            simp at hh
            exact absurd hh.symm hbs
        · by_cases h3 : scHere (c0 :: r0) = true
          · obtain ⟨rfl, c1, c2, c3, c4, c5, c6, c7, c8, r', rfl⟩ := scHere_decomp h3
            rw [escAll_sc h3] at hh
            simp at hh
            exact absurd hh.symm hlt
          · rw [escAll_default h0 h1 h2 (by simpa using h3)] at hh
            simpa using hh

/-- `escAll` preserves case-insensitive prefix matches whose pattern avoids
the characters the scan rewrites. -/
theorem matchesCI_escAll : ∀ pat : List Char,
    (∀ p ∈ pat, ciEq '\\' p = false ∧ ciEq '`' p = false ∧
      ciEq '$' p = false ∧ ciEq '<' p = false) →
    ∀ r : List Char, matchesCI pat (escAll r) = matchesCI pat r := by
  intro pat
  induction pat with
  | nil => intro _ r; rfl
  | cons p ps ih =>
    intro hp r
    have hps := fun q hq => hp q (List.mem_cons_of_mem _ hq)
    have hpp := hp p (List.mem_cons_self _ _)
    cases r with
    | nil => rfl
    | cons c0 r0 =>
      by_cases h0 : c0 = '\\'
      · subst h0
        rw [escAll_bs]
        simp [matchesCI, hpp.1]
      · by_cases h1 : c0 = '`'
        · subst h1
          rw [escAll_bt]
          simp [matchesCI, hpp.1, hpp.2.1]
        · by_cases h2 : c0 = '$' ∧ r0.head? = some '{'
          · obtain ⟨rfl, hh2⟩ := h2
            rcases r0 with _ | ⟨a, r1⟩
            · simp at hh2
            · simp at hh2
              subst hh2
              rw [escAll_db]
              simp [matchesCI, hpp.1, hpp.2.2.1]
          · by_cases h3 : scHere (c0 :: r0) = true
            · obtain ⟨rfl, c1, c2, c3, c4, c5, c6, c7, c8, r', rfl⟩ := scHere_decomp h3
              rw [escAll_sc h3]
              simp [matchesCI, hpp.2.2.2]
            · rw [escAll_default h0 h1 h2 (by simpa using h3)]
              simp only [matchesCI]
              rw [ih hps r0]


/-- The first two stages never make a string start with `{`. -/
theorem esc12_head_brace : ∀ r : List Char,
    (esc2 (esc1 r)).head? = some '{' → r.head? = some '{' := by
  intro r h
  cases r with
  | nil => simp [esc1, esc2] at h
  | cons c0 r0 =>
    by_cases h0 : c0 = '\\'
    · subst h0
      rw [esc1_bs, esc2_cons (by decide)] at h
      simp at h
    · rw [esc1_cons h0] at h
      by_cases h1 : c0 = '`'
      · subst h1
        rw [esc2_bt] at h
        simp at h
      · rw [esc2_cons h1] at h
        simpa using h

/-- `scHere` after a `<` head reduces to matching the tail pattern. -/
theorem scHere_cons_lt (x : List Char) :
    scHere ('<' :: x) = matchesCI ['/', 's', 'c', 'r', 'i', 'p', 't', '>'] x := by
  have h : ciEq '<' '<' = true := by decide
  simp [scHere, matchesCI, h]

/-- The first three stages preserve case-insensitive prefix matches whose
pattern avoids the characters they rewrite. -/
theorem matchesCI_esc123 : ∀ pat : List Char,
    (∀ p ∈ pat, ciEq '\\' p = false ∧ ciEq '`' p = false ∧ ciEq '$' p = false) →
    ∀ r : List Char, matchesCI pat (esc3 (esc2 (esc1 r))) = matchesCI pat r := by
  intro pat
  induction pat with
  | nil => intro _ r; rfl
  | cons p ps ih =>
    intro hp r
    have hps := fun q hq => hp q (List.mem_cons_of_mem _ hq)
    have hpp := hp p (List.mem_cons_self _ _)
    cases r with
    | nil => rfl
    | cons c0 r0 =>
      by_cases h0 : c0 = '\\'
      · subst h0
        rw [esc1_bs, esc2_cons (by decide), esc2_cons (by decide),
          esc3_cons (by decide), esc3_cons (by decide)]
        simp [matchesCI, hpp.1]
      · by_cases h1 : c0 = '`'
        · subst h1
          rw [esc1_cons (by decide), esc2_bt, esc3_cons (by decide),
            esc3_cons (by decide)]
          simp [matchesCI, hpp.1, hpp.2.1]
        · by_cases h2 : c0 = '$' ∧ r0.head? = some '{'
          · obtain ⟨rfl, hh2⟩ := h2
            rcases r0 with _ | ⟨a, r1⟩
            · simp at hh2
            · simp at hh2
              subst hh2
              rw [esc1_cons (by decide), esc1_cons (by decide),
                esc2_cons (by decide), esc2_cons (by decide), esc3_db]
              simp [matchesCI, hpp.1, hpp.2.2]
          · by_cases h3 : c0 = '$'
            · subst h3
              rw [esc1_cons (by decide), esc2_cons (by decide), esc3_dollar ?hb]
              case hb =>
                intro hbr
                exact h2 ⟨rfl, esc12_head_brace r0 hbr⟩
              simp only [matchesCI]
              rw [hpp.2.2]
              simp
            · rw [esc1_cons h0, esc2_cons h1, esc3_cons h3]
              simp only [matchesCI]
              rw [ih hps r0]

/-- **Bridge.**  The four sequential replacements of `generateEmbedCode`
equal the single prioritised scan `escAll`: the four patterns use disjoint
alphabets, so each stage passes the other stages' patterns and replacements
through untouched. -/
theorem escapeSvg_eq_escAll : ∀ l : List Char, escapeSvg l = escAll l := by
  have H : ∀ (n : Nat) (l : List Char), l.length ≤ n → escapeSvg l = escAll l := by
    intro n
    induction n with
    | zero =>
      intro l hl
      have hnil : l = [] := List.eq_nil_of_length_eq_zero (Nat.le_zero.1 hl)
      subst hnil
      rfl
    | succ n ih =>
      intro l hl
      cases l with
      | nil => rfl
      | cons c r =>
        have hr : r.length ≤ n := by
          simp only [List.length_cons] at hl
          omega
        show esc4 (esc3 (esc2 (esc1 (c :: r)))) = escAll (c :: r)
        by_cases h0 : c = '\\'
        · subst h0
          have ih2 : esc4 (esc3 (esc2 (esc1 r))) = escAll r := ih r hr
          rw [esc1_bs, esc2_cons (by decide), esc2_cons (by decide),
            esc3_cons (by decide), esc3_cons (by decide),
            esc4_cons (scHere_false_of_ne_lt (by decide) _),
            esc4_cons (scHere_false_of_ne_lt (by decide) _), escAll_bs, ih2]
        · by_cases h1 : c = '`'
          · subst h1
            have ih2 : esc4 (esc3 (esc2 (esc1 r))) = escAll r := ih r hr
            rw [esc1_cons (by decide), esc2_bt, esc3_cons (by decide),
              esc3_cons (by decide),
              esc4_cons (scHere_false_of_ne_lt (by decide) _),
              esc4_cons (scHere_false_of_ne_lt (by decide) _), escAll_bt, ih2]
          · by_cases h2 : c = '$' ∧ r.head? = some '{'
            · obtain ⟨rfl, hh2⟩ := h2
              rcases r with _ | ⟨a, r1⟩
              · simp at hh2
              · simp only [List.head?_cons, Option.some.injEq] at hh2
                subst hh2
                have hr1 : r1.length ≤ n := by
                  simp only [List.length_cons] at hl
                  omega
                have ih2 : esc4 (esc3 (esc2 (esc1 r1))) = escAll r1 := ih r1 hr1
                rw [esc1_cons (by decide), esc1_cons (by decide),
                  esc2_cons (by decide), esc2_cons (by decide), esc3_db,
                  esc4_cons (scHere_false_of_ne_lt (by decide) _),
                  esc4_cons (scHere_false_of_ne_lt (by decide) _),
                  esc4_cons (scHere_false_of_ne_lt (by decide) _),
                  escAll_db, ih2]
            · by_cases h3 : scHere (c :: r) = true
              · obtain ⟨rfl, c1, c2, c3, c4, c5, c6, c7, c8, r', rfl⟩ := scHere_decomp h3
                have hsplit := h3
                simp only [scHere, matchesCI, Bool.and_eq_true] at hsplit
                obtain ⟨g0, g1, g2, g3, g4, g5, g6, g7, g8⟩ := hsplit
                have hr' : r'.length ≤ n := by
                  simp only [List.length_cons] at hl
                  omega
                have ih2 : esc4 (esc3 (esc2 (esc1 r'))) = escAll r' := ih r' hr'
                rw [esc1_cons (by decide), esc1_cons (ne_of_ciEq '\\' g1 (by decide)),
                  esc1_cons (ne_of_ciEq '\\' g2 (by decide)),
                  esc1_cons (ne_of_ciEq '\\' g3 (by decide)),
                  esc1_cons (ne_of_ciEq '\\' g4 (by decide)),
                  esc1_cons (ne_of_ciEq '\\' g5 (by decide)),
                  esc1_cons (ne_of_ciEq '\\' g6 (by decide)),
                  esc1_cons (ne_of_ciEq '\\' g7 (by decide)),
                  esc1_cons (ne_of_ciEq '\\' g8.1 (by decide))]
                rw [esc2_cons (by decide), esc2_cons (ne_of_ciEq '`' g1 (by decide)),
                  esc2_cons (ne_of_ciEq '`' g2 (by decide)),
                  esc2_cons (ne_of_ciEq '`' g3 (by decide)),
                  esc2_cons (ne_of_ciEq '`' g4 (by decide)),
                  esc2_cons (ne_of_ciEq '`' g5 (by decide)),
                  esc2_cons (ne_of_ciEq '`' g6 (by decide)),
                  esc2_cons (ne_of_ciEq '`' g7 (by decide)),
                  esc2_cons (ne_of_ciEq '`' g8.1 (by decide))]
                rw [esc3_cons (by decide), esc3_cons (ne_of_ciEq '$' g1 (by decide)),
                  esc3_cons (ne_of_ciEq '$' g2 (by decide)),
                  esc3_cons (ne_of_ciEq '$' g3 (by decide)),
                  esc3_cons (ne_of_ciEq '$' g4 (by decide)),
                  esc3_cons (ne_of_ciEq '$' g5 (by decide)),
                  esc3_cons (ne_of_ciEq '$' g6 (by decide)),
                  esc3_cons (ne_of_ciEq '$' g7 (by decide)),
                  esc3_cons (ne_of_ciEq '$' g8.1 (by decide))]
                have hsc' : scHere ('<' :: c1 :: c2 :: c3 :: c4 :: c5 :: c6 :: c7 :: c8 ::
                    esc3 (esc2 (esc1 r'))) = true := by
                  rw [scHere_nine '<' c1 c2 c3 c4 c5 c6 c7 c8 (esc3 (esc2 (esc1 r'))) r']
                  exact h3
                rw [esc4_sc hsc', escAll_sc h3, ih2]
              · have hsc : scHere (c :: r) = false := by simpa using h3
                have ih2 : esc4 (esc3 (esc2 (esc1 r))) = escAll r := ih r hr
                have hp8 : ∀ p ∈ ['/', 's', 'c', 'r', 'i', 'p', 't', '>'],
                    ciEq '\\' p = false ∧ ciEq '`' p = false ∧ ciEq '$' p = false := by
                  intro p hp
                  fin_cases hp <;> exact ⟨by decide, by decide, by decide⟩
                have hscE : scHere (c :: esc3 (esc2 (esc1 r))) = false := by
                  by_cases hlt : c = '<'
                  · subst hlt
                    rw [scHere_cons_lt, matchesCI_esc123 _ hp8 r, ← scHere_cons_lt]
                    exact hsc
                  · exact scHere_false_of_ne_lt hlt _
                by_cases h4 : c = '$'
                · subst h4
                  rw [esc1_cons (by decide), esc2_cons (by decide), esc3_dollar ?hb]
                  case hb =>
                    intro hbr
                    exact h2 ⟨rfl, esc12_head_brace r hbr⟩
                  rw [esc4_cons hscE, escAll_default h0 h1 h2 hsc, ih2]
                · rw [esc1_cons h0, esc2_cons h1, esc3_cons h4,
                    esc4_cons hscE, escAll_default h0 h1 h2 hsc, ih2]
  intro l
  exact H l.length l le_rfl


/-- Decoding an escaped backslash. -/
theorem dec_bsbs (x : List Char) :
    decodeTemplate ('\\' :: '\\' :: x) = (decodeTemplate x).map (fun t => '\\' :: t) := rfl

/-- Decoding an escaped backtick. -/
theorem dec_bsbt (x : List Char) :
    decodeTemplate ('\\' :: '`' :: x) = (decodeTemplate x).map (fun t => '`' :: t) := rfl

/-- Decoding an escaped dollar sign. -/
theorem dec_bsdollar (x : List Char) :
    decodeTemplate ('\\' :: '$' :: x) = (decodeTemplate x).map (fun t => '$' :: t) := rfl

/-- Decoding an escaped slash (a NonEscapeCharacter). -/
theorem dec_bsslash (x : List Char) :
    decodeTemplate ('\\' :: '/' :: x) = (decodeTemplate x).map (fun t => '/' :: t) := rfl

/-- Decoding normalises `\r\n` to `\n`. -/
theorem dec_crlf (x : List Char) :
    decodeTemplate ('\r' :: '\n' :: x) = (decodeTemplate x).map (fun t => '\n' :: t) := rfl

/-- Decoding normalises a lone `\r` to `\n`. -/
theorem dec_cr {x : List Char} (h : x.head? ≠ some '\n') :
    decodeTemplate ('\r' :: x) = (decodeTemplate x).map (fun t => '\n' :: t) := by
  rcases x with _ | ⟨a, y⟩
  · rfl
  · rw [decodeTemplate.eq_def]
    split
    · rename_i heq; cases heq
    · rename_i rest heq
      rw [List.cons.injEq] at heq
      cases heq.1
    · rename_i heq
      rw [List.cons.injEq] at heq
      cases heq.1
    · rename_i r heq
      rw [List.cons.injEq, List.cons.injEq] at heq
      exact absurd (by rw [heq.2.1]; rfl : (a :: y).head? = some '\n') h
    · rename_i r heq
      rw [List.cons.injEq] at heq
      rw [heq.2]
    · rename_i hcrlf hcr2 heq
      rw [List.cons.injEq] at heq
      exact absurd heq.1.symm hcr2

/-- Decoding copies an unremarkable character. -/
theorem dec_plain {c : Char} {x : List Char} (h1 : c ≠ '\\') (h2 : c ≠ '`') (h3 : c ≠ '\r')
    (h4 : ¬(c = '$' ∧ x.head? = some '{')) :
    decodeTemplate (c :: x) = (decodeTemplate x).map (fun t => c :: t) := by
  rw [decodeTemplate.eq_def]
  split
  · rename_i heq; cases heq
  · rename_i rest heq
    rw [List.cons.injEq] at heq
    exact absurd heq.1 h1
  · rename_i heq
    rw [List.cons.injEq] at heq
    refine absurd ⟨heq.1, ?_⟩ h4
    rw [heq.2]
    rfl
  · rename_i r heq
    rw [List.cons.injEq] at heq
    exact absurd heq.1 h3
  · rename_i r heq
    rw [List.cons.injEq] at heq
    exact absurd heq.1 h3
  · rename_i c2 r heq
    rw [List.cons.injEq] at heq
    obtain ⟨hc, hx⟩ := heq
    subst hc
    subst hx
    rw [if_neg h2]

/-- `lscNorm` merges `\r\n` into `\n`. -/
theorem lsc_crlf (r : List Char) : lscNorm ('\r' :: '\n' :: r) = '\n' :: lscNorm r := by
  rcases r with _ | ⟨a1, _ | ⟨a2, _ | ⟨a3, _ | ⟨a4, _ | ⟨a5, _ | ⟨a6, _ | ⟨a7, y⟩⟩⟩⟩⟩⟩⟩ <;>
    simp [lscNorm]

/-- `lscNorm` rewrites a lone `\r` to `\n`. -/
theorem lsc_cr {r : List Char} (h : r.head? ≠ some '\n') :
    lscNorm ('\r' :: r) = '\n' :: lscNorm r := by
  rcases r with _ | ⟨a, y⟩
  · simp [lscNorm]
  · have ha : a ≠ '\n' := by simpa using h
    rcases y with _ | ⟨b1, _ | ⟨b2, _ | ⟨b3, _ | ⟨b4, _ | ⟨b5, _ | ⟨b6, _ | ⟨b7, z⟩⟩⟩⟩⟩⟩⟩ <;>
      simp [lscNorm, ha]

/-- `lscNorm` lowercases a leading case-insensitive `</script>`. -/
theorem lsc_sc {c0 c1 c2 c3 c4 c5 c6 c7 c8 : Char} {r : List Char}
    (h : scHere (c0 :: c1 :: c2 :: c3 :: c4 :: c5 :: c6 :: c7 :: c8 :: r) = true) :
    lscNorm (c0 :: c1 :: c2 :: c3 :: c4 :: c5 :: c6 :: c7 :: c8 :: r) =
      '<' :: '/' :: 's' :: 'c' :: 'r' :: 'i' :: 'p' :: 't' :: '>' :: lscNorm r := by
  have h0 : ciEq c0 '<' = true := by
    have h' := h
    simp only [scHere, matchesCI, Bool.and_eq_true] at h'
    exact h'.1
  obtain rfl := eq_lt_of_ciEq h0
  simp [lscNorm, h]

/-- `lscNorm` copies an unremarkable head. -/
theorem lsc_default {c : Char} {r : List Char} (hcr : c ≠ '\r')
    (hsc : scHere (c :: r) = false) : lscNorm (c :: r) = c :: lscNorm r := by
  rcases r with _ | ⟨a1, _ | ⟨a2, _ | ⟨a3, _ | ⟨a4, _ | ⟨a5, _ | ⟨a6, _ | ⟨a7, _ | ⟨a8, y⟩⟩⟩⟩⟩⟩⟩⟩ <;>
    simp [lscNorm, hcr, hsc]


/-- **Round trip.**  Decoding the single-scan escape of any text as a
template-literal body succeeds and yields the `lscNorm` normalisation of the
text. -/
theorem decode_escAll : ∀ l : List Char, decodeTemplate (escAll l) = some (lscNorm l) := by
  have H : ∀ (n : Nat) (l : List Char), l.length ≤ n →
      decodeTemplate (escAll l) = some (lscNorm l) := by
    intro n
    induction n with
    | zero =>
      intro l hl
      have hnil : l = [] := List.eq_nil_of_length_eq_zero (Nat.le_zero.1 hl)
      subst hnil
      rfl
    | succ n ih =>
      intro l hl
      cases l with
      | nil => rfl
      | cons c r =>
        have hr : r.length ≤ n := by
          simp only [List.length_cons] at hl
          omega
        by_cases h0 : c = '\\'
        · subst h0
          rw [escAll_bs, dec_bsbs, ih r hr,
            lsc_default (by decide) (scHere_false_of_ne_lt (by decide) _)]
          rfl
        · by_cases h1 : c = '`'
          · subst h1
            rw [escAll_bt, dec_bsbt, ih r hr,
              lsc_default (by decide) (scHere_false_of_ne_lt (by decide) _)]
            rfl
          · by_cases h2 : c = '$' ∧ r.head? = some '{'
            · obtain ⟨rfl, hh⟩ := h2
              rcases r with _ | ⟨a, r1⟩
              · simp at hh
              · simp only [List.head?_cons, Option.some.injEq] at hh
                subst hh
                have hr1 : r1.length ≤ n := by
                  simp only [List.length_cons] at hl
                  omega
                rw [escAll_db, dec_bsdollar,
                  dec_plain (by decide) (by decide) (by decide) (by simp),
                  ih r1 hr1,
                  lsc_default (by decide) (scHere_false_of_ne_lt (by decide) _),
                  lsc_default (by decide) (scHere_false_of_ne_lt (by decide) _)]
                rfl
            · by_cases h3 : scHere (c :: r) = true
              · obtain ⟨rfl, c1, c2, c3, c4, c5, c6, c7, c8, r', rfl⟩ := scHere_decomp h3
                have hr' : r'.length ≤ n := by
                  simp only [List.length_cons] at hl
                  omega
                rw [escAll_sc h3, lsc_sc h3,
                  dec_plain (by decide) (by decide) (by decide) (by simp),
                  dec_bsslash,
                  dec_plain (by decide) (by decide) (by decide) (by simp),
                  dec_plain (by decide) (by decide) (by decide) (by simp),
                  dec_plain (by decide) (by decide) (by decide) (by simp),
                  dec_plain (by decide) (by decide) (by decide) (by simp),
                  dec_plain (by decide) (by decide) (by decide) (by simp),
                  dec_plain (by decide) (by decide) (by decide) (by simp),
                  dec_plain (by decide) (by decide) (by decide) (by simp),
                  ih r' hr']
                rfl
              · have hsc : scHere (c :: r) = false := by simpa using h3
                by_cases hcr : c = '\r'
                · subst hcr
                  by_cases hn : r.head? = some '\n'
                  · rcases r with _ | ⟨a, r1⟩
                    · simp at hn
                    · simp only [List.head?_cons, Option.some.injEq] at hn
                      subst hn
                      have hr1 : r1.length ≤ n := by
                        simp only [List.length_cons] at hl
                        omega
                      rw [escAll_default (by decide) (by decide) (by simp) hsc,
                        escAll_default (by decide) (by decide) (by simp)
                          (scHere_false_of_ne_lt (by decide) _),
                        dec_crlf, ih r1 hr1, lsc_crlf]
                      rfl
                  · rw [escAll_default (by decide) (by decide) (by simp) hsc]
                    have hnE : (escAll r).head? ≠ some '\n' := fun hc =>
                      hn (escAll_head (by decide) (by decide) r hc)
                    rw [dec_cr hnE, ih r hr, lsc_cr hn]
                    rfl
                · rw [escAll_default h0 h1 h2 hsc]
                  have hdE : ¬(c = '$' ∧ (escAll r).head? = some '{') := by
                    rintro ⟨rfl, hh⟩
                    exact h2 ⟨rfl, escAll_head (by decide) (by decide) r hh⟩
                  rw [dec_plain h0 h1 hcr hdE, ih r hr, lsc_default hcr hsc]
                  rfl
  intro l
  exact H l.length l le_rfl

/-- Unfolding `containsSC` over a cons cell. -/
theorem containsSC_cons (c : Char) (r : List Char) :
    containsSC (c :: r) = (scHere (c :: r) || containsSC r) := rfl

/-- The single-scan escape of any text contains no case-insensitive
`</script>` occurrence. -/
theorem containsSC_escAll : ∀ l : List Char, containsSC (escAll l) = false := by
  have hp8 : ∀ p ∈ ['/', 's', 'c', 'r', 'i', 'p', 't', '>'],
      ciEq '\\' p = false ∧ ciEq '`' p = false ∧ ciEq '$' p = false ∧ ciEq '<' p = false := by
    intro p hp
    fin_cases hp <;> exact ⟨by decide, by decide, by decide, by decide⟩
  have H : ∀ (n : Nat) (l : List Char), l.length ≤ n → containsSC (escAll l) = false := by
    intro n
    induction n with
    | zero =>
      intro l hl
      have hnil : l = [] := List.eq_nil_of_length_eq_zero (Nat.le_zero.1 hl)
      subst hnil
      rfl
    | succ n ih =>
      intro l hl
      cases l with
      | nil => rfl
      | cons c r =>
        have hr : r.length ≤ n := by
          simp only [List.length_cons] at hl
          omega
        by_cases h0 : c = '\\'
        · subst h0
          rw [escAll_bs, containsSC_cons, containsSC_cons,
            scHere_false_of_ne_lt (by decide), scHere_false_of_ne_lt (by decide),
            ih r hr]
          rfl
        · by_cases h1 : c = '`'
          · subst h1
            rw [escAll_bt, containsSC_cons, containsSC_cons,
              scHere_false_of_ne_lt (by decide), scHere_false_of_ne_lt (by decide),
              ih r hr]
            rfl
          · by_cases h2 : c = '$' ∧ r.head? = some '{'
            · obtain ⟨rfl, hh⟩ := h2
              rcases r with _ | ⟨a, r1⟩
              · simp at hh
              · simp only [List.head?_cons, Option.some.injEq] at hh
                subst hh
                have hr1 : r1.length ≤ n := by
                  simp only [List.length_cons] at hl
                  omega
                rw [escAll_db, containsSC_cons, containsSC_cons, containsSC_cons,
                  scHere_false_of_ne_lt (by decide), scHere_false_of_ne_lt (by decide),
                  scHere_false_of_ne_lt (by decide), ih r1 hr1]
                rfl
            · by_cases h3 : scHere (c :: r) = true
              · obtain ⟨rfl, c1, c2, c3, c4, c5, c6, c7, c8, r', rfl⟩ := scHere_decomp h3
                have hr' : r'.length ≤ n := by
                  simp only [List.length_cons] at hl
                  omega
                rw [escAll_sc h3]
                have hpos0 : scHere ('<' :: '\\' :: '/' :: 's' :: 'c' :: 'r' :: 'i' :: 'p' ::
                    't' :: '>' :: escAll r') = false := by
                  rw [scHere_cons_lt]
                  simp [matchesCI, (by decide : ciEq '\\' '/' = false)]
                rw [containsSC_cons, hpos0, containsSC_cons,
                  scHere_false_of_ne_lt (by decide), containsSC_cons,
                  scHere_false_of_ne_lt (by decide), containsSC_cons,
                  scHere_false_of_ne_lt (by decide), containsSC_cons,
                  scHere_false_of_ne_lt (by decide), containsSC_cons,
                  scHere_false_of_ne_lt (by decide), containsSC_cons,
                  scHere_false_of_ne_lt (by decide), containsSC_cons,
                  scHere_false_of_ne_lt (by decide), containsSC_cons,
                  scHere_false_of_ne_lt (by decide), containsSC_cons,
                  scHere_false_of_ne_lt (by decide), ih r' hr']
                rfl
              · have hsc : scHere (c :: r) = false := by simpa using h3
                rw [escAll_default h0 h1 h2 hsc, containsSC_cons]
                have hscE : scHere (c :: escAll r) = false := by
                  by_cases hlt : c = '<'
                  · subst hlt
                    rw [scHere_cons_lt, matchesCI_escAll _ hp8 r, ← scHere_cons_lt]
                    exact hsc
                  · exact scHere_false_of_ne_lt hlt _
                rw [hscE, ih r hr]
                rfl
  intro l
  exact H l.length l le_rfl

/-- **C9 counterexample.**  The claim states that decoding the escaped SVG
text as the template-literal body reproduces the original exactly.  But the
`</script>`-neutralising replacement substitutes the *fixed lowercase*
string `<\\/script>`: the input `</SCRIPT>` escapes to `<\\/script>`, which
decodes to `</script>` — not the original `</SCRIPT>`. -/
theorem escape_roundtrip_claim_false :
    decodeTemplate (escapeSvg "</SCRIPT>".data) = some "</script>".data ∧
    "</script>".data ≠ "</SCRIPT>".data := by
  decide

/-- **C9 (amended).**  For every SVG source string, decoding the escaped
text as the body of a template string literal *succeeds* — no input can
terminate the literal or open an interpolation — and reproduces the
original text up to two normalisations: every case-insensitive occurrence
of `</script>` is rewritten to lowercase, and the line terminators
`\r\n`/`\r` decode to `\n` (the template-literal value normalisation).
Moreover the escaped text contains no case-insensitive occurrence of the
exact sequence `</script>` — the sequence the generator neutralises — so
that sequence cannot reach the embedding script block. -/
theorem escapeSvg_template_safe :
    (∀ s : List Char, decodeTemplate (escapeSvg s) = some (lscNorm s)) ∧
    (∀ s : List Char, containsSC (escapeSvg s) = false) := by
  constructor
  · intro s
    rw [escapeSvg_eq_escAll]
    exact decode_escAll s
  · intro s
    rw [escapeSvg_eq_escAll]
    exact containsSC_escAll s

end SvgMap
